import Mathlib

/-!
Verification of the tournament / balance-ledger / quiz-security core of the
quiz-app backend.  The definitions below are shallow embeddings of the
JavaScript source:

* `Tournament.completeTournament`, `Tournament.calculateRankings`,
  `Tournament.distributePrizes`, `Tournament.updateParticipantScore`,
  `Tournament.canJoin` embed the Mongoose instance methods of
  `src/models/Tournament.js`.
* `User.addBalance` / `User.deductBalance` embed the User-schema balance
  methods found in the same file.
* `canTakeQuiz` embeds `QuizSecurityService.canTakeQuiz` of
  `src/services/quizSecurityService.js` (times in integer milliseconds).
* `joinRoute` embeds the guard sequence of `POST /api/tournaments/:id/join`
  in `src/routes/telegram.js`.

Dates are modelled as integer millisecond timestamps, Mongo ObjectIds as
naturals, JS numbers used for money/score/time as integers.
-/

namespace QuizApp

inductive TStatus where
  | upcoming
  | active
  | completed
  | cancelled
deriving DecidableEq, Repr

inductive TPhase where
  | registration
  | quiz
  | results
deriving DecidableEq, Repr

/-- One entry of a participant's `answers[]` array. -/
structure AnswerRec where
  questionId : Nat
  selectedAnswer : Int
  isCorrect : Bool
  timeSpent : Int
deriving DecidableEq, Repr

/-- One element of `tournament.participants[]`. -/
structure Participant where
  user : Nat
  joinedAt : Int
  score : Int
  timeSpent : Int
  answers : List AnswerRec
  rank : Nat
  prize : Int
deriving DecidableEq, Repr

/-- One element of `tournament.prizeDistribution[]`. -/
structure PrizeEntry where
  rank : Nat
  prize : Int
deriving DecidableEq, Repr

/-- One element of `tournament.topParticipants[]`. -/
structure TopEntry where
  user : Nat
  rank : Nat
  score : Int
  prize : Int
deriving DecidableEq, Repr

/-- The fields of the tournament document that the completion / join logic
reads or writes. -/
structure Tournament where
  status : TStatus
  phase : TPhase
  entryFee : Int
  maxParticipants : Nat
  registrationStart : Int
  registrationEnd : Int
  participants : List Participant
  prizeDistribution : List PrizeEntry
  winner : Option Nat
  topParticipants : List TopEntry
  actualEndTime : Option Int
  statsTotalPrizes : Int
  isPrivate : Bool
deriving DecidableEq, Repr

/-- The virtual `isRegistrationOpen` of the tournament schema. -/
def Tournament.isRegistrationOpen (t : Tournament) (now : Int) : Bool :=
  decide (t.status = TStatus.upcoming) &&
  decide (t.registrationStart ≤ now) &&
  decide (now ≤ t.registrationEnd) &&
  decide (t.participants.length < t.maxParticipants)

/-- Result shape of `canJoin`. -/
structure CanJoinResult where
  canJoin : Bool
  reason : Option String
deriving DecidableEq, Repr

/-- `tournamentSchema.methods.canJoin`. -/
def Tournament.canJoin (t : Tournament) (userId : Nat) (now : Int) : CanJoinResult :=
  if t.participants.any (fun p => p.user == userId) then
    ⟨false, some "Already a participant"⟩
  else if t.maxParticipants ≤ t.participants.length then
    ⟨false, some "Tournament is full"⟩
  else if !(t.isRegistrationOpen now) then
    ⟨false, some "Registration is closed"⟩
  else if t.isPrivate then
    ⟨false, some "Private tournament"⟩
  else
    ⟨true, none⟩

/-- The comparator of `calculateRankings`: participant `a` sorts before `b`
when `a.score > b.score`, ties broken by smaller `timeSpent`. -/
def partLE (a b : Participant) : Prop :=
  b.score < a.score ∨ (a.score = b.score ∧ a.timeSpent ≤ b.timeSpent)

instance : DecidableRel partLE := fun a b => by
  unfold partLE
  infer_instance

instance : IsTotal Participant partLE :=
  ⟨by
    intro a b
    unfold partLE
    omega⟩

instance : IsTrans Participant partLE :=
  ⟨by
    intro a b c hab hbc
    unfold partLE at hab hbc ⊢
    omega⟩

/-- Rank assignment pass of `calculateRankings`: position `i` (0-based) of the
sorted array receives `rank = i + 1`. -/
def assignRanks : Nat → List Participant → List Participant
  | _, [] => []
  | n, p :: ps => { p with rank := n } :: assignRanks (n + 1) ps

/-- `tournamentSchema.methods.calculateRankings`: stable sort by score
descending then timeSpent ascending, assign ranks `1..N`, set `winner` to the
first participant when the list is nonempty, rebuild `topParticipants`. -/
def Tournament.calculateRankings (t : Tournament) : Tournament :=
  let ranked := assignRanks 1 (List.insertionSort partLE t.participants)
  { t with
    participants := ranked
    winner := match ranked with
      | [] => t.winner
      | p :: _ => some p.user
    topParticipants := (ranked.take 10).map (fun p => ⟨p.user, p.rank, p.score, p.prize⟩) }

/-- The per-participant action of `distributePrizes`: look up the entry of
`prizeDistribution` whose rank equals the participant's rank, and set the
prize when found. -/
def prizeUpdate (dist : List PrizeEntry) (p : Participant) : Participant :=
  match dist.find? (fun e => e.rank == p.rank) with
  | some e => { p with prize := e.prize }
  | none => p

/-- Prize paid to an occupied rank `r` under distribution `dist` (0 when the
rank has no entry), matching the `find`-based lookup of `distributePrizes`
applied to a participant whose prize is still 0. -/
def lookupPrize (dist : List PrizeEntry) (r : Nat) : Int :=
  match dist.find? (fun e => e.rank == r) with
  | some e => e.prize
  | none => 0

/-- `tournamentSchema.methods.distributePrizes`. -/
def Tournament.distributePrizes (t : Tournament) : Tournament :=
  if t.prizeDistribution = [] then t
  else
    let newParts := t.participants.map (prizeUpdate t.prizeDistribution)
    { t with
      participants := newParts
      statsTotalPrizes := (newParts.map (fun p => p.prize)).sum }

/-- `tournamentSchema.methods.completeTournament`: requires `status ===
'active'` (throws otherwise), then sets status/phase/actualEndTime and runs
`calculateRankings` and `distributePrizes`. -/
def Tournament.completeTournament (t : Tournament) (now : Int) : Except String Tournament :=
  if t.status = TStatus.active then
    Except.ok
      (({ t with
          status := TStatus.completed
          phase := TPhase.results
          actualEndTime := some now }).calculateRankings).distributePrizes
  else
    Except.error "Tournament is not active"

/-- `participants.find(...)` followed by in-place mutation: only the first
participant whose user id matches is overwritten. -/
def updateFirstParticipant (userId : Nat) (score timeSpent : Int)
    (answers : List AnswerRec) : List Participant → List Participant
  | [] => []
  | p :: ps =>
    if p.user = userId then
      { p with score := score, timeSpent := timeSpent, answers := answers } :: ps
    else
      p :: updateFirstParticipant userId score timeSpent answers ps

/-- `tournamentSchema.methods.updateParticipantScore`: throws when the user is
not a participant, otherwise overwrites `score`, `timeSpent` and `answers`. -/
def Tournament.updateParticipantScore (t : Tournament) (userId : Nat)
    (score timeSpent : Int) (answers : List AnswerRec) : Except String Tournament :=
  if t.participants.any (fun p => p.user == userId) then
    Except.ok
      { t with participants := updateFirstParticipant userId score timeSpent answers t.participants }
  else
    Except.error "User is not a participant"

/-- The balance fields of the user document. -/
structure User where
  playableBalance : Int
  bonusBalance : Int
  balance : Int
  totalEarned : Int
deriving DecidableEq, Repr

/-- `userSchema.methods.addBalance(amount, type)`.  Note that the source
increments `totalEarned` unconditionally. -/
def User.addBalance (u : User) (amount : Int) (ty : String) : User :=
  let u1 :=
    if ty = "playable" then { u with playableBalance := u.playableBalance + amount }
    else if ty = "bonus" then { u with bonusBalance := u.bonusBalance + amount }
    else u
  { u1 with
    balance := u1.playableBalance + u1.bonusBalance
    totalEarned := u1.totalEarned + amount }

/-- `userSchema.methods.deductBalance(amount, type)`: returns the new state
and the boolean the source returns. -/
def User.deductBalance (u : User) (amount : Int) (ty : String) : User × Bool :=
  if ty = "playable" ∧ amount ≤ u.playableBalance then
    let u1 := { u with playableBalance := u.playableBalance - amount }
    ({ u1 with balance := u1.playableBalance + u1.bonusBalance }, true)
  else if ty = "bonus" ∧ amount ≤ u.bonusBalance then
    let u1 := { u with bonusBalance := u.bonusBalance - amount }
    ({ u1 with balance := u1.playableBalance + u1.bonusBalance }, true)
  else
    (u, false)

/-- Value of the bucket named by the `type` string (as `deductBalance` reads
it: `playable` first, everything else handled as the bonus side for the
purpose of stating bucket-local facts about the two real buckets). -/
def bucketOf (u : User) (ty : String) : Int :=
  if ty = "playable" then u.playableBalance else u.bonusBalance

/-- The bucket `ty` does not name. -/
def otherBucket (u : User) (ty : String) : Int :=
  if ty = "playable" then u.bonusBalance else u.playableBalance

/-- One ledger operation: a credit (`addBalance`) or a debit
(`deductBalance`). -/
inductive BalanceOp where
  | credit (amount : Int) (bucket : String)
  | debit (amount : Int) (bucket : String)
deriving DecidableEq, Repr

def BalanceOp.amount : BalanceOp → Int
  | .credit a _ => a
  | .debit a _ => a

def applyOp (u : User) : BalanceOp → User
  | .credit a b => u.addBalance a b
  | .debit a b => (u.deductBalance a b).1

def applyOps (u : User) (ops : List BalanceOp) : User :=
  ops.foldl applyOp u

/-- The balance invariant of the user document: `balance` is the sum of the
two buckets and nothing is negative. -/
def validUser (u : User) : Prop :=
  u.balance = u.playableBalance + u.bonusBalance ∧
  0 ≤ u.playableBalance ∧ 0 ≤ u.bonusBalance ∧ 0 ≤ u.balance

instance : DecidablePred validUser := fun u => by
  unfold validUser
  infer_instance

/-- Security-rule constants of `QuizSecurityService`. -/
def maxDailyQuizzes : Nat := 10

def maxHourlyQuizzes : Nat := 3

def minTimeBetweenQuizzes : Int := 30000

/-- The per-user-per-difficulty attempt record. -/
structure AttemptData where
  daily : List Int
  hourly : List Int
  lastAttempt : Int
deriving DecidableEq, Repr

/-- Result shape of `canTakeQuiz`.  The source returns `resetTime: null` for
the suspicious case; `none` models the null. -/
structure QuizCheck where
  allowed : Bool
  reason : Option String
  resetTime : Option Int
deriving DecidableEq, Repr

/-- `QuizSecurityService.canTakeQuiz`: the four checks in source order.
`now` is `Date.now()`, `todayStart` is the local-midnight timestamp the
source computes with `setHours(0,0,0,0)`, `suspicious` is membership in the
in-memory suspicious set. -/
def canTakeQuiz (d : AttemptData) (suspicious : Bool) (now todayStart : Int) : QuizCheck :=
  let todayAttempts := d.daily.filter (fun time => decide (todayStart ≤ time))
  if maxDailyQuizzes ≤ todayAttempts.length then
    ⟨false, some "DAILY_LIMIT_EXCEEDED", some (todayStart + 24 * 60 * 60 * 1000)⟩
  else
    let hourStart := now - 60 * 60 * 1000
    let hourAttempts := d.hourly.filter (fun time => decide (hourStart ≤ time))
    if maxHourlyQuizzes ≤ hourAttempts.length then
      ⟨false, some "HOURLY_LIMIT_EXCEEDED", some (hourStart + 60 * 60 * 1000)⟩
    else if d.lastAttempt ≠ 0 ∧ now - d.lastAttempt < minTimeBetweenQuizzes then
      ⟨false, some "COOLDOWN_ACTIVE",
        some (now + (minTimeBetweenQuizzes - (now - d.lastAttempt)))⟩
    else if suspicious then
      ⟨false, some "SUSPICIOUS_ACTIVITY", none⟩
    else
      ⟨true, none, none⟩

/-- The guard sequence of `POST /api/tournaments/:id/join`: reject with the
`canJoin` reason when `canJoin` fails, then reject on insufficient playable
balance, otherwise accept. -/
def joinRoute (t : Tournament) (userId : Nat) (now : Int) (userPlayable : Int) :
    Except String Unit :=
  let c := t.canJoin userId now
  if c.canJoin = false then
    Except.error (c.reason.getD "CANNOT_JOIN")
  else if userPlayable < t.entryFee then
    Except.error "INSUFFICIENT_BALANCE"
  else
    Except.ok ()

/-! Concrete fixtures used by witnesses and counterexamples.  `exT` is the
spec §8 payout scenario: three participants with scores 90/90/70 and times
20/15/30 and a 50/30/20 distribution. -/

def exT : Tournament :=
  ⟨TStatus.active, TPhase.quiz, 20, 10, 0, 100,
    [⟨1, 0, 90, 20, [], 0, 0⟩, ⟨2, 0, 90, 15, [], 0, 0⟩, ⟨3, 0, 70, 30, [], 0, 0⟩],
    [⟨1, 50⟩, ⟨2, 30⟩, ⟨3, 20⟩], none, [], none, 0, false⟩

/-- `exT` after completion already happened once: `status = completed`. -/
def exTdone : Tournament :=
  { exT with status := TStatus.completed, phase := TPhase.results }

/-- A private upcoming tournament with a free roster slot. -/
def exTpriv : Tournament :=
  ⟨TStatus.upcoming, TPhase.registration, 20, 10, 0, 100,
    [⟨1, 0, 0, 0, [], 0, 0⟩], [], none, [], none, 0, true⟩

/-- A valid user fixture. -/
def exU : User := ⟨80, 5, 85, 0⟩

/-- An active tournament whose single participant already has score 10. -/
def exTscore : Tournament :=
  ⟨TStatus.active, TPhase.quiz, 20, 10, 0, 100,
    [⟨1, 0, 10, 3, [], 0, 0⟩], [], none, [], none, 0, false⟩

/-- `exT` completed at time 999 (the value `completeTournament` returns). -/
def exTcompleted : Tournament :=
  ((({ exT with status := TStatus.completed, phase := TPhase.results, actualEndTime := some 999 } : Tournament)).calculateRankings).distributePrizes

/-- A tournament whose participants already carry distinct ranks 1..3 and
zero prizes, as `calculateRankings` leaves them at completion time. -/
def exTranked : Tournament :=
  ⟨TStatus.completed, TPhase.results, 20, 10, 0, 100,
    [⟨2, 0, 90, 15, [], 1, 0⟩, ⟨1, 0, 90, 20, [], 2, 0⟩, ⟨3, 0, 70, 30, [], 3, 0⟩],
    [⟨1, 50⟩, ⟨2, 30⟩, ⟨3, 20⟩], none, [], none, 0, false⟩

/-- Attempt record with three attempts inside the last hour
(7,000,000 / 8,000,000 / 9,000,000 ms, evaluated at now = 10,000,000 ms). -/
def exAttempts : AttemptData :=
  ⟨[7000000, 8000000, 9000000], [7000000, 8000000, 9000000], 9000000⟩

end QuizApp

namespace QuizApp

theorem calculateRankings_status (t : Tournament) : (t.calculateRankings).status = t.status := rfl

theorem calculateRankings_phase (t : Tournament) : (t.calculateRankings).phase = t.phase := rfl

theorem calculateRankings_endTime (t : Tournament) :
    (t.calculateRankings).actualEndTime = t.actualEndTime := rfl

theorem distributePrizes_status (t : Tournament) : (t.distributePrizes).status = t.status := by
  unfold Tournament.distributePrizes
  split <;> rfl

theorem distributePrizes_phase (t : Tournament) : (t.distributePrizes).phase = t.phase := by
  unfold Tournament.distributePrizes
  split <;> rfl

theorem distributePrizes_endTime (t : Tournament) :
    (t.distributePrizes).actualEndTime = t.actualEndTime := by
  unfold Tournament.distributePrizes
  split <;> rfl

/-- C1: completion requires an active status.  Invoking `completeTournament`
on a tournament whose status is not `active` (in particular one already
`completed`) returns the error "Tournament is not active" and produces no
updated tournament, so no state change and no second prize assignment
occurs; on an `active` tournament it succeeds and the result has
`status = completed`, `phase = results` and `actualEndTime = now`. -/
theorem completeTournament_requires_active (t : Tournament) (now : Int) :
    (t.status ≠ TStatus.active →
      t.completeTournament now = Except.error "Tournament is not active")
    ∧ (t.status = TStatus.active →
      ∃ t', t.completeTournament now = Except.ok t'
        ∧ t'.status = TStatus.completed ∧ t'.phase = TPhase.results
        ∧ t'.actualEndTime = some now) := by
  constructor
  · intro h
    unfold Tournament.completeTournament
    simp [h]
  · intro h
    unfold Tournament.completeTournament
    rw [if_pos h]
    refine ⟨_, rfl, ?_, ?_, ?_⟩
    · rw [distributePrizes_status, calculateRankings_status]
    · rw [distributePrizes_phase, calculateRankings_phase]
    · rw [distributePrizes_endTime, calculateRankings_endTime]

theorem completeTournament_requires_active_witness :
    exTdone.completeTournament 999 = Except.error "Tournament is not active"
    ∧ ∃ t', exT.completeTournament 999 = Except.ok t'
        ∧ t'.status = TStatus.completed ∧ t'.phase = TPhase.results
        ∧ t'.actualEndTime = some 999 :=
  ⟨(completeTournament_requires_active exTdone 999).1 (by decide),
   (completeTournament_requires_active exT 999).2 rfl⟩

end QuizApp

namespace QuizApp

theorem validUser_applyOp (u : User) (op : BalanceOp) (h : validUser u)
    (ha : 0 ≤ op.amount) : validUser (applyOp u op) := by
  obtain ⟨h1, h2, h3, h4⟩ := h
  cases op with
  | credit a b =>
    simp only [BalanceOp.amount] at ha
    simp only [applyOp, User.addBalance]
    split_ifs <;> exact ⟨rfl, by simp; omega, by simp; omega, by simp; omega⟩
  | debit a b =>
    simp only [BalanceOp.amount] at ha
    simp only [applyOp, User.deductBalance]
    split_ifs with hc1 hc2
    · exact ⟨rfl, by simp; omega, by simp; omega, by simp; omega⟩
    · exact ⟨rfl, by simp; omega, by simp; omega, by simp; omega⟩
    · exact ⟨h1, h2, h3, h4⟩

theorem validUser_applyOps (ops : List BalanceOp) :
    ∀ u : User, validUser u → (∀ op ∈ ops, 0 ≤ op.amount) →
      validUser (applyOps u ops) := by
  induction ops with
  | nil => intro u hu _; exact hu
  | cons op rest ih =>
    intro u hu hops
    have h1 : validUser (applyOp u op) :=
      validUser_applyOp u op hu (hops op (List.mem_cons_self op rest))
    have h2 : ∀ o ∈ rest, 0 ≤ o.amount := fun o ho => hops o (List.mem_cons_of_mem op ho)
    simpa [applyOps, List.foldl_cons] using ih (applyOp u op) h1 h2

/-- C3: balance conservation.  Starting from a valid user state, after every
prefix of any sequence of `addBalance` credits and `deductBalance` debits
with nonnegative amounts, `balance = playableBalance + bonusBalance` holds
and none of `balance`, `playableBalance`, `bonusBalance` is negative. -/
theorem balance_conservation (u : User) (ops : List BalanceOp) (n : Nat)
    (hu : validUser u) (hops : ∀ op ∈ ops, 0 ≤ op.amount) :
    validUser (applyOps u (ops.take n)) :=
  validUser_applyOps (ops.take n) u hu
    (fun op hop => hops op (List.take_subset n ops hop))

theorem balance_conservation_witness :
    validUser (applyOps exU ([BalanceOp.credit 7 "bonus", BalanceOp.debit 50 "playable",
      BalanceOp.debit 100 "playable"].take 2)) :=
  balance_conservation exU
    [BalanceOp.credit 7 "bonus", BalanceOp.debit 50 "playable", BalanceOp.debit 100 "playable"]
    2 (by decide) (by decide)

end QuizApp

namespace QuizApp

theorem bucketOf_playable (u : User) : bucketOf u "playable" = u.playableBalance := rfl

theorem bucketOf_bonus (u : User) : bucketOf u "bonus" = u.bonusBalance := rfl

theorem otherBucket_playable (u : User) : otherBucket u "playable" = u.bonusBalance := rfl

theorem otherBucket_bonus (u : User) : otherBucket u "bonus" = u.playableBalance := rfl

/-- C4: debits are all-or-nothing.  If the amount exceeds the chosen
bucket's current value, `deductBalance` returns `false` and leaves the user
record completely unchanged; on success it returns `true`, decreases exactly
the chosen bucket and the aggregate balance by the amount, and leaves the
other bucket and `totalEarned` untouched. -/
theorem deductBalance_all_or_nothing (u : User) (amount : Int) (b : String)
    (hb : b = "playable" ∨ b = "bonus")
    (hbal : u.balance = u.playableBalance + u.bonusBalance) :
    (bucketOf u b < amount → u.deductBalance amount b = (u, false))
    ∧ (amount ≤ bucketOf u b →
        (u.deductBalance amount b).2 = true
        ∧ bucketOf (u.deductBalance amount b).1 b = bucketOf u b - amount
        ∧ otherBucket (u.deductBalance amount b).1 b = otherBucket u b
        ∧ (u.deductBalance amount b).1.balance = u.balance - amount
        ∧ (u.deductBalance amount b).1.totalEarned = u.totalEarned) := by
  rcases hb with rfl | rfl
  · constructor
    · intro hlt
      rw [bucketOf_playable] at hlt
      simp only [User.deductBalance]
      split_ifs with hc1 hc2 <;> first | rfl | omega | simp_all
    · intro hle
      rw [bucketOf_playable] at hle
      have hres : u.deductBalance amount "playable" =
          ({ u with playableBalance := u.playableBalance - amount, balance := u.playableBalance - amount + u.bonusBalance }, true) := by
        simp only [User.deductBalance]
        rw [if_pos ⟨trivial, hle⟩]
      rw [hres, bucketOf_playable, bucketOf_playable, otherBucket_playable,
        otherBucket_playable]
      refine ⟨rfl, rfl, rfl, ?_, rfl⟩
      simp
      omega
  · constructor
    · intro hlt
      rw [bucketOf_bonus] at hlt
      simp only [User.deductBalance]
      split_ifs with hc1 hc2 <;> first | rfl | omega | simp_all
    · intro hle
      rw [bucketOf_bonus] at hle
      have hres : u.deductBalance amount "bonus" =
          ({ u with bonusBalance := u.bonusBalance - amount, balance := u.playableBalance + (u.bonusBalance - amount) }, true) := by
        simp only [User.deductBalance]
        rw [if_neg (by simp), if_pos ⟨trivial, hle⟩]
      rw [hres, bucketOf_bonus, bucketOf_bonus, otherBucket_bonus, otherBucket_bonus]
      refine ⟨rfl, rfl, rfl, ?_, rfl⟩
      simp
      omega

end QuizApp

namespace QuizApp

theorem deductBalance_all_or_nothing_witness :
    (exU.deductBalance 100 "playable" = (exU, false))
    ∧ ((exU.deductBalance 50 "playable").2 = true
        ∧ bucketOf (exU.deductBalance 50 "playable").1 "playable" = bucketOf exU "playable" - 50
        ∧ otherBucket (exU.deductBalance 50 "playable").1 "playable" = otherBucket exU "playable"
        ∧ (exU.deductBalance 50 "playable").1.balance = exU.balance - 50
        ∧ (exU.deductBalance 50 "playable").1.totalEarned = exU.totalEarned) :=
  ⟨(deductBalance_all_or_nothing exU 100 "playable" (Or.inl rfl) (by decide)).1 (by decide),
   (deductBalance_all_or_nothing exU 50 "playable" (Or.inl rfl) (by decide)).2 (by decide)⟩

/-- C7 counterexample: the leave-tournament refund is performed by
`addBalance(entryFee, 'playable')`, and `addBalance` increments `totalEarned`
unconditionally, so an entry-fee refund does change `totalEarned`. -/
theorem addBalance_refund_totalEarned_cex :
    ((User.addBalance ⟨80, 0, 80, 0⟩ 20 "playable").totalEarned = 20 ∧ (20 : Int) ≠ 0) := by
  decide

/-- C7 (amended): `addBalance` never fails, increases the chosen bucket and
the aggregate balance by the amount, and always increases `totalEarned` by
the amount — for every credit, including ones that are not winnings/income
such as the entry-fee refund of the leave route. -/
theorem addBalance_spec (u : User) (amount : Int) (b : String)
    (hb : b = "playable" ∨ b = "bonus")
    (hbal : u.balance = u.playableBalance + u.bonusBalance) :
    bucketOf (u.addBalance amount b) b = bucketOf u b + amount
    ∧ otherBucket (u.addBalance amount b) b = otherBucket u b
    ∧ (u.addBalance amount b).balance = u.balance + amount
    ∧ (u.addBalance amount b).totalEarned = u.totalEarned + amount := by
  rcases hb with rfl | rfl
  · have hres : u.addBalance amount "playable" =
        { u with playableBalance := u.playableBalance + amount, balance := u.playableBalance + amount + u.bonusBalance, totalEarned := u.totalEarned + amount } := by
      simp only [User.addBalance]
      simp
    rw [hres, bucketOf_playable, bucketOf_playable, otherBucket_playable, otherBucket_playable]
    refine ⟨rfl, rfl, ?_, rfl⟩
    simp
    omega
  · have hres : u.addBalance amount "bonus" =
        { u with bonusBalance := u.bonusBalance + amount, balance := u.playableBalance + (u.bonusBalance + amount), totalEarned := u.totalEarned + amount } := by
      simp only [User.addBalance]
      simp
    rw [hres, bucketOf_bonus, bucketOf_bonus, otherBucket_bonus, otherBucket_bonus]
    refine ⟨rfl, rfl, ?_, rfl⟩
    simp
    omega

theorem addBalance_spec_witness :
    bucketOf (exU.addBalance 7 "bonus") "bonus" = bucketOf exU "bonus" + 7
    ∧ otherBucket (exU.addBalance 7 "bonus") "bonus" = otherBucket exU "bonus"
    ∧ (exU.addBalance 7 "bonus").balance = exU.balance + 7
    ∧ (exU.addBalance 7 "bonus").totalEarned = exU.totalEarned + 7 :=
  addBalance_spec exU 7 "bonus" (Or.inr rfl) (by decide)

end QuizApp

namespace QuizApp

/-- Let-free normal form of `canTakeQuiz`. -/
theorem canTakeQuiz_def (d : AttemptData) (susp : Bool) (now todayStart : Int) :
    canTakeQuiz d susp now todayStart =
      (if maxDailyQuizzes ≤ (d.daily.filter (fun time => decide (todayStart ≤ time))).length then
        ⟨false, some "DAILY_LIMIT_EXCEEDED", some (todayStart + 24 * 60 * 60 * 1000)⟩
      else if maxHourlyQuizzes ≤
          (d.hourly.filter (fun time => decide (now - 60 * 60 * 1000 ≤ time))).length then
        ⟨false, some "HOURLY_LIMIT_EXCEEDED", some (now - 60 * 60 * 1000 + 60 * 60 * 1000)⟩
      else if d.lastAttempt ≠ 0 ∧ now - d.lastAttempt < minTimeBetweenQuizzes then
        ⟨false, some "COOLDOWN_ACTIVE",
          some (now + (minTimeBetweenQuizzes - (now - d.lastAttempt)))⟩
      else if susp then
        ⟨false, some "SUSPICIOUS_ACTIVITY", none⟩
      else
        ⟨true, none, none⟩) := rfl

/-- C8: rate-limit boundaries.  Exactly `maxDailyQuizzes` (10) attempts
today denies with `DAILY_LIMIT_EXCEEDED`; one fewer passes the daily check;
a last attempt 29 s ago (with the 30 s cooldown, once the daily and hourly
checks pass) denies with `COOLDOWN_ACTIVE`; a last attempt 31 s ago passes
the cooldown check. -/
theorem rate_limit_boundaries (d : AttemptData) (susp : Bool) (now todayStart : Int) :
    ((d.daily.filter (fun time => decide (todayStart ≤ time))).length = maxDailyQuizzes →
      canTakeQuiz d susp now todayStart =
        ⟨false, some "DAILY_LIMIT_EXCEEDED", some (todayStart + 24 * 60 * 60 * 1000)⟩)
    ∧ ((d.daily.filter (fun time => decide (todayStart ≤ time))).length = maxDailyQuizzes - 1 →
      (canTakeQuiz d susp now todayStart).reason ≠ some "DAILY_LIMIT_EXCEEDED")
    ∧ (d.lastAttempt = now - 29000 → d.lastAttempt ≠ 0 →
      (d.daily.filter (fun time => decide (todayStart ≤ time))).length < maxDailyQuizzes →
      (d.hourly.filter (fun time => decide (now - 60 * 60 * 1000 ≤ time))).length < maxHourlyQuizzes →
      canTakeQuiz d susp now todayStart = ⟨false, some "COOLDOWN_ACTIVE", some (now + 1000)⟩)
    ∧ (d.lastAttempt = now - 31000 →
      (canTakeQuiz d susp now todayStart).reason ≠ some "COOLDOWN_ACTIVE") := by
  rw [canTakeQuiz_def]
  refine ⟨?_, ?_, ?_, ?_⟩
  · intro h
    rw [if_pos (by omega)]
  · intro h
    rw [if_neg (by simp [maxDailyQuizzes] at h ⊢; omega)]
    split_ifs <;> simp
  · intro h1 h2 h3 h4
    rw [if_neg (by omega), if_neg (by omega), if_pos ⟨h2, by rw [h1]; simp only [minTimeBetweenQuizzes]; omega⟩]
    have : now + (minTimeBetweenQuizzes - (now - d.lastAttempt)) = now + 1000 := by
      rw [h1]; simp only [minTimeBetweenQuizzes]; omega
    rw [this]
  · intro h1
    split_ifs with hd hh hc
    · simp
    · simp
    · exfalso
      rw [h1] at hc
      simp only [minTimeBetweenQuizzes] at hc
      omega
    · simp
    · simp

theorem rate_limit_boundaries_witness :
    (canTakeQuiz ⟨[1, 2, 3, 4, 5, 6, 7, 8, 9, 10], [], 0⟩ false 100 0 =
      ⟨false, some "DAILY_LIMIT_EXCEEDED", some 86400000⟩)
    ∧ ((canTakeQuiz ⟨[1, 2, 3, 4, 5, 6, 7, 8, 9], [], 0⟩ false 100 0).reason ≠
        some "DAILY_LIMIT_EXCEEDED")
    ∧ (canTakeQuiz ⟨[9000000], [9000000], 9000000⟩ false 9029000 0 =
        ⟨false, some "COOLDOWN_ACTIVE", some 9030000⟩)
    ∧ ((canTakeQuiz ⟨[9000000], [9000000], 9000000⟩ false 9031000 0).reason ≠
        some "COOLDOWN_ACTIVE") :=
  ⟨((rate_limit_boundaries ⟨[1, 2, 3, 4, 5, 6, 7, 8, 9, 10], [], 0⟩ false 100 0).1 (by decide)),
   ((rate_limit_boundaries ⟨[1, 2, 3, 4, 5, 6, 7, 8, 9], [], 0⟩ false 100 0).2.1 (by decide)),
   ((rate_limit_boundaries ⟨[9000000], [9000000], 9000000⟩ false 9029000 0).2.2.1 (by decide)
      (by decide) (by decide) (by decide)),
   ((rate_limit_boundaries ⟨[9000000], [9000000], 9000000⟩ false 9031000 0).2.2.2 (by decide))⟩

end QuizApp

namespace QuizApp

/-- C9 counterexample: three hourly attempts at 7,000,000 / 8,000,000 /
9,000,000 ms evaluated at now = 10,000,000 ms give `HOURLY_LIMIT_EXCEEDED`
with `resetTime = hourStart + 1h = now` itself; at that very instant the
check still denies, and it in fact only stops denying after the oldest
attempt leaves the window (10,600,001 ms), so `resetTime` is not the instant
the blocking condition clears. -/
theorem hourly_resetTime_cex :
    (canTakeQuiz exAttempts false 10000000 0).reason = some "HOURLY_LIMIT_EXCEEDED"
    ∧ (canTakeQuiz exAttempts false 10000000 0).resetTime = some 10000000
    ∧ (canTakeQuiz exAttempts false 10000000 0).allowed = false
    ∧ (canTakeQuiz exAttempts false 10600001 0).reason ≠ some "HOURLY_LIMIT_EXCEEDED" := by
  decide

/-- C9 (amended): the `resetTime` returned with each denial.  For
`DAILY_LIMIT_EXCEEDED` it is the next day boundary; for `COOLDOWN_ACTIVE`
it is `lastAttempt + 30 s` (the end of the cooldown); for
`SUSPICIOUS_ACTIVITY` it is null; but for `HOURLY_LIMIT_EXCEEDED` it is
`hourStart + 1 h`, which is the evaluation instant `now` itself, not the
instant the sliding hourly window frees a slot. -/
theorem resetTime_values (d : AttemptData) (susp : Bool) (now todayStart : Int) :
    ((canTakeQuiz d susp now todayStart).reason = some "DAILY_LIMIT_EXCEEDED" →
      (canTakeQuiz d susp now todayStart).resetTime = some (todayStart + 24 * 60 * 60 * 1000))
    ∧ ((canTakeQuiz d susp now todayStart).reason = some "HOURLY_LIMIT_EXCEEDED" →
      (canTakeQuiz d susp now todayStart).resetTime = some now)
    ∧ ((canTakeQuiz d susp now todayStart).reason = some "COOLDOWN_ACTIVE" →
      (canTakeQuiz d susp now todayStart).resetTime = some (d.lastAttempt + minTimeBetweenQuizzes))
    ∧ ((canTakeQuiz d susp now todayStart).reason = some "SUSPICIOUS_ACTIVITY" →
      (canTakeQuiz d susp now todayStart).resetTime = none) := by
  rw [canTakeQuiz_def]
  split_ifs <;> refine ⟨?_, ?_, ?_, ?_⟩ <;> intro h <;> (simp_all; try omega)

theorem resetTime_values_witness :
    (canTakeQuiz exAttempts false 10000000 0).resetTime = some 10000000 :=
  (resetTime_values exAttempts false 10000000 0).2.1 (by decide)

end QuizApp

namespace QuizApp

/-- C10: private tournaments reject public joins.  For a tournament with
`isPrivate = true` and any user who is not already a participant, `canJoin`
returns `canJoin = false`; when the roster has space and registration is
open the reason is exactly "Private tournament"; and the join route always
rejects with an error. -/
theorem private_tournament_rejects_join (t : Tournament) (uid : Nat) (now : Int)
    (hp : t.isPrivate = true) (hnp : ∀ p ∈ t.participants, p.user ≠ uid) :
    (t.canJoin uid now).canJoin = false
    ∧ (t.participants.length < t.maxParticipants → t.isRegistrationOpen now = true →
        t.canJoin uid now = ⟨false, some "Private tournament"⟩)
    ∧ (∀ bal : Int, ∃ msg, joinRoute t uid now bal = Except.error msg) := by
  have hany : t.participants.any (fun p => p.user == uid) = false := by
    simp only [List.any_eq_false]
    intro p hpmem
    simp [hnp p hpmem]
  have h1 : (t.canJoin uid now).canJoin = false := by
    simp only [Tournament.canJoin, hany]
    split_ifs with ha hb hc <;> simp_all
  refine ⟨h1, ?_, ?_⟩
  · intro hlen hopen
    simp only [Tournament.canJoin, hany]
    rw [if_neg (by simp), if_neg (by omega), if_neg (by simp [hopen]), if_pos hp]
  · intro bal
    refine ⟨((t.canJoin uid now).reason.getD "CANNOT_JOIN"), ?_⟩
    simp only [joinRoute]
    rw [if_pos h1]

theorem private_tournament_rejects_join_witness :
    ((exTpriv.canJoin 2 50).canJoin = false)
    ∧ (exTpriv.canJoin 2 50 = ⟨false, some "Private tournament"⟩)
    ∧ (∃ msg, joinRoute exTpriv 2 50 1000 = Except.error msg) := by
  have h := private_tournament_rejects_join exTpriv 2 50 (by decide) (by decide)
  exact ⟨h.1, h.2.1 (by decide) (by decide), h.2.2 1000⟩

end QuizApp

namespace QuizApp

/-- C6 counterexample: during the active phase, `updateParticipantScore`
overwrites the stored score with whatever value is passed; passing 5 to a
participant whose score is 10 lowers it. -/
theorem updateParticipantScore_not_monotone_cex :
    ((exTscore.updateParticipantScore 1 5 7 []).toOption.map
        (fun t => t.participants.map (fun p => p.score)) = some [5])
    ∧ exTscore.participants.map (fun p => p.score) = [10]
    ∧ (5 : Int) < 10 ∧ exTscore.status = TStatus.active := by
  decide

theorem updateFirstParticipant_find (uid : Nat) (s ts : Int) (ans : List AnswerRec) :
    ∀ (l : List Participant) (p : Participant),
      l.find? (fun q => q.user == uid) = some p →
      (updateFirstParticipant uid s ts ans l).find? (fun q => q.user == uid) =
        some { p with score := s, timeSpent := ts, answers := ans } := by
  intro l
  induction l with
  | nil => intro p hp; simp at hp
  | cons q qs ih =>
    intro p hp
    by_cases hq : q.user = uid
    · rw [List.find?_cons_of_pos _ (by simp [hq])] at hp
      have hpq : p = q := by simp at hp; exact hp.symm
      subst hpq
      simp only [updateFirstParticipant, if_pos hq]
      rw [List.find?_cons_of_pos _ (by simp [hq])]
    · rw [List.find?_cons_of_neg _ (by simp [hq])] at hp
      simp only [updateFirstParticipant, if_neg hq]
      rw [List.find?_cons_of_neg _ (by simp [hq])]
      exact ih p hp

/-- C6 (amended): `updateParticipantScore` overwrites the matched
participant's `score`, `timeSpent` and `answers` with exactly the values
passed in — the new score may be lower than the old one, so per-participant
monotonicity of scores is not enforced by this method. -/
theorem updateParticipantScore_overwrites (t : Tournament) (uid : Nat) (s ts : Int)
    (ans : List AnswerRec) (p : Participant)
    (hf : t.participants.find? (fun q => q.user == uid) = some p) :
    ∃ t', t.updateParticipantScore uid s ts ans = Except.ok t'
      ∧ t'.participants.find? (fun q => q.user == uid) =
          some { p with score := s, timeSpent := ts, answers := ans } := by
  have hany : t.participants.any (fun q => q.user == uid) = true := by
    have hmem := List.mem_of_find?_eq_some hf
    have hpred := List.find?_some hf
    exact List.any_eq_true.mpr ⟨p, hmem, hpred⟩
  refine ⟨{ t with participants := updateFirstParticipant uid s ts ans t.participants }, ?_, ?_⟩
  · simp [Tournament.updateParticipantScore, hany]
  · exact updateFirstParticipant_find uid s ts ans t.participants p hf

theorem updateParticipantScore_overwrites_witness :
    ∃ t', exTscore.updateParticipantScore 1 5 7 [] = Except.ok t'
      ∧ t'.participants.find? (fun q => q.user == 1) =
          some { user := 1, joinedAt := 0, score := 5, timeSpent := 7, answers := [], rank := 0, prize := 0 } :=
  updateParticipantScore_overwrites exTscore 1 5 7 [] ⟨1, 0, 10, 3, [], 0, 0⟩ (by decide)

end QuizApp

namespace QuizApp

theorem assignRanks_length (l : List Participant) :
    ∀ n, (assignRanks n l).length = l.length := by
  induction l with
  | nil => intro n; rfl
  | cons p ps ih => intro n; simp [assignRanks, ih]

theorem assignRanks_get (l : List Participant) :
    ∀ (n i : Nat) (h : i < l.length),
      (assignRanks n l).get ⟨i, by rw [assignRanks_length]; exact h⟩ =
        { l.get ⟨i, h⟩ with rank := n + i } := by
  induction l with
  | nil => intro n i h; exact absurd h (by simp)
  | cons p ps ih =>
    intro n i h
    cases i with
    | zero => simp [assignRanks]
    | succ j =>
      have hj : j < ps.length := by simpa using h
      have hstep : (assignRanks n (p :: ps)).get
          ⟨j + 1, by rw [assignRanks_length]; exact h⟩ =
          (assignRanks (n + 1) ps).get ⟨j, by rw [assignRanks_length]; exact hj⟩ := rfl
      rw [hstep, ih (n + 1) j hj]
      have harith : n + 1 + j = n + (j + 1) := by omega
      simp [harith]

theorem assignRanks_map_rank (l : List Participant) :
    ∀ n, (assignRanks n l).map (fun p => p.rank) = List.range' n l.length := by
  induction l with
  | nil => intro n; rfl
  | cons p ps ih => intro n; simp [assignRanks, List.range'_succ, ih]

theorem mem_assignRanks {q : Participant} (l : List Participant) :
    ∀ n, q ∈ assignRanks n l → ∃ m, ∃ q' ∈ l, q = { q' with rank := m } := by
  induction l with
  | nil => intro n h; simp [assignRanks] at h
  | cons p ps ih =>
    intro n h
    simp only [assignRanks, List.mem_cons] at h
    rcases h with h | h
    · exact ⟨n, p, List.mem_cons_self p ps, h⟩
    · obtain ⟨m, q', hq', hm⟩ := ih (n + 1) h
      exact ⟨m, q', List.mem_cons_of_mem p hq', hm⟩

theorem assignRanks_order (s : List Participant) (hs : List.Pairwise partLE s)
    (p q : Participant) (hp : p ∈ assignRanks 1 s) (hq : q ∈ assignRanks 1 s) :
    (q.score < p.score → p.rank < q.rank)
    ∧ (p.score = q.score → p.timeSpent < q.timeSpent → p.rank < q.rank) := by
  obtain ⟨⟨i, hi⟩, hpi⟩ := List.mem_iff_get.mp hp
  obtain ⟨⟨j, hj⟩, hqj⟩ := List.mem_iff_get.mp hq
  have hi' : i < s.length := by rw [assignRanks_length] at hi; exact hi
  have hj' : j < s.length := by rw [assignRanks_length] at hj; exact hj
  have hpe : p = { s.get ⟨i, hi'⟩ with rank := 1 + i } := by
    rw [← hpi]; exact assignRanks_get s 1 i hi'
  have hqe : q = { s.get ⟨j, hj'⟩ with rank := 1 + j } := by
    rw [← hqj]; exact assignRanks_get s 1 j hj'
  have hrankp : p.rank = 1 + i := by rw [hpe]
  have hrankq : q.rank = 1 + j := by rw [hqe]
  have hscorep : p.score = (s.get ⟨i, hi'⟩).score := by rw [hpe]
  have hscoreq : q.score = (s.get ⟨j, hj'⟩).score := by rw [hqe]
  have htimep : p.timeSpent = (s.get ⟨i, hi'⟩).timeSpent := by rw [hpe]
  have htimeq : q.timeSpent = (s.get ⟨j, hj'⟩).timeSpent := by rw [hqe]
  have hkey : ∀ a b : Fin s.length, a < b → partLE (s.get a) (s.get b) :=
    fun a b hab => List.pairwise_iff_get.mp hs a b hab
  constructor
  · intro hscore
    rw [hrankp, hrankq]
    by_contra hcon
    push_neg at hcon
    have hji : j ≤ i := by omega
    rcases Nat.lt_or_ge j i with hlt | hge
    · have := hkey ⟨j, hj'⟩ ⟨i, hi'⟩ hlt
      unfold partLE at this
      omega
    · have hij : i = j := by omega
      subst hij
      omega
  · intro hscore htime
    rw [hrankp, hrankq]
    by_contra hcon
    push_neg at hcon
    rcases Nat.lt_or_ge j i with hlt | hge
    · have := hkey ⟨j, hj'⟩ ⟨i, hi'⟩ hlt
      unfold partLE at this
      omega
    · have hij : i = j := by omega
      subst hij
      omega

end QuizApp

namespace QuizApp

theorem calculateRankings_participants (t : Tournament) :
    (t.calculateRankings).participants =
      assignRanks 1 (List.insertionSort partLE t.participants) := rfl

theorem sorted_base (t : Tournament) :
    List.Pairwise partLE (List.insertionSort partLE t.participants) :=
  List.sorted_insertionSort partLE t.participants

theorem prizeUpdate_user (d : List PrizeEntry) (p : Participant) :
    (prizeUpdate d p).user = p.user := by
  rcases hfind : d.find? (fun e => e.rank == p.rank) with _ | e <;>
    simp [prizeUpdate, hfind]

theorem prizeUpdate_score (d : List PrizeEntry) (p : Participant) :
    (prizeUpdate d p).score = p.score := by
  rcases hfind : d.find? (fun e => e.rank == p.rank) with _ | e <;>
    simp [prizeUpdate, hfind]

theorem prizeUpdate_timeSpent (d : List PrizeEntry) (p : Participant) :
    (prizeUpdate d p).timeSpent = p.timeSpent := by
  rcases hfind : d.find? (fun e => e.rank == p.rank) with _ | e <;>
    simp [prizeUpdate, hfind]

theorem prizeUpdate_rank (d : List PrizeEntry) (p : Participant) :
    (prizeUpdate d p).rank = p.rank := by
  rcases hfind : d.find? (fun e => e.rank == p.rank) with _ | e <;>
    simp [prizeUpdate, hfind]

theorem distributePrizes_participants (t : Tournament) :
    (t.distributePrizes).participants =
      t.participants.map (prizeUpdate t.prizeDistribution) := by
  unfold Tournament.distributePrizes
  split
  case isTrue h =>
    rw [h]
    have hid : prizeUpdate ([] : List PrizeEntry) = id := funext fun p => rfl
    rw [hid, List.map_id]
  case isFalse h => rfl

theorem distributePrizes_winner (t : Tournament) :
    (t.distributePrizes).winner = t.winner := by
  unfold Tournament.distributePrizes
  split <;> rfl

theorem completeTournament_ok (t : Tournament) (now : Int) (t' : Tournament)
    (h : t.completeTournament now = Except.ok t') :
    t.status = TStatus.active ∧
    t' = (({ t with status := TStatus.completed, phase := TPhase.results, actualEndTime := some now }).calculateRankings).distributePrizes := by
  by_cases hst : t.status = TStatus.active
  · rw [Tournament.completeTournament, if_pos hst] at h
    injection h with h
    exact ⟨hst, h.symm⟩
  · rw [Tournament.completeTournament, if_neg hst] at h
    exact absurd h (by simp)

theorem calculateRankings_winner_mem (t : Tournament) (h : t.participants ≠ []) :
    ∃ p ∈ (t.calculateRankings).participants,
      p.rank = 1 ∧ (t.calculateRankings).winner = some p.user := by
  have hlen : (List.insertionSort partLE t.participants).length = t.participants.length :=
    (List.perm_insertionSort partLE t.participants).length_eq
  rcases hs : List.insertionSort partLE t.participants with _ | ⟨p, ps⟩
  · exfalso
    apply h
    rw [hs] at hlen
    exact List.length_eq_zero.mp hlen.symm
  · refine ⟨{ p with rank := 1 }, ?_, rfl, ?_⟩
    · rw [calculateRankings_participants, hs]
      exact List.mem_cons_self _ _
    · show (t.calculateRankings).winner = some p.user
      unfold Tournament.calculateRankings
      rw [hs]
      rfl

end QuizApp

namespace QuizApp

/-- C2: ranking correctness after completion.  When `completeTournament`
succeeds, the participants carry ranks exactly `1..N` in order (hence no
gaps or duplicates); any participant with a strictly higher score has a
strictly lower (better) rank; among equal scores the participant with
strictly smaller `timeSpent` has the lower rank; and when the roster is
nonempty the `winner` is the user of the rank-1 participant. -/
theorem tournament_ranking_correct (t : Tournament) (now : Int) (t' : Tournament)
    (h : t.completeTournament now = Except.ok t') :
    (t'.participants.map (fun p => p.rank) = List.range' 1 t.participants.length)
    ∧ (∀ p ∈ t'.participants, ∀ q ∈ t'.participants, q.score < p.score → p.rank < q.rank)
    ∧ (∀ p ∈ t'.participants, ∀ q ∈ t'.participants,
        p.score = q.score → p.timeSpent < q.timeSpent → p.rank < q.rank)
    ∧ (t.participants ≠ [] →
        ∃ p ∈ t'.participants, p.rank = 1 ∧ t'.winner = some p.user) := by
  obtain ⟨hst, ht'⟩ := completeTournament_ok t now t' h
  have hparts : t'.participants =
      (assignRanks 1 (List.insertionSort partLE t.participants)).map
        (prizeUpdate t.prizeDistribution) := by
    rw [ht', distributePrizes_participants]
    rfl
  have hlen : (List.insertionSort partLE t.participants).length = t.participants.length :=
    (List.perm_insertionSort partLE t.participants).length_eq
  have hsorted : List.Pairwise partLE (List.insertionSort partLE t.participants) :=
    List.sorted_insertionSort partLE t.participants
  refine ⟨?_, ?_, ?_, ?_⟩
  · rw [hparts, List.map_map]
    have hcong : (assignRanks 1 (List.insertionSort partLE t.participants)).map
          ((fun p => p.rank) ∘ prizeUpdate t.prizeDistribution) =
        (assignRanks 1 (List.insertionSort partLE t.participants)).map (fun p => p.rank) :=
      List.map_congr_left (fun p hp => prizeUpdate_rank t.prizeDistribution p)
    rw [hcong, assignRanks_map_rank, hlen]
  · intro p hp q hq hscore
    rw [hparts] at hp hq
    obtain ⟨p0, hp0, hpe⟩ := List.mem_map.mp hp
    obtain ⟨q0, hq0, hqe⟩ := List.mem_map.mp hq
    have hps : p.score = p0.score := by rw [← hpe, prizeUpdate_score]
    have hqs : q.score = q0.score := by rw [← hqe, prizeUpdate_score]
    have hpr : p.rank = p0.rank := by rw [← hpe, prizeUpdate_rank]
    have hqr : q.rank = q0.rank := by rw [← hqe, prizeUpdate_rank]
    have hord := (assignRanks_order _ hsorted p0 q0 hp0 hq0).1 (by omega)
    omega
  · intro p hp q hq hscore htime
    rw [hparts] at hp hq
    obtain ⟨p0, hp0, hpe⟩ := List.mem_map.mp hp
    obtain ⟨q0, hq0, hqe⟩ := List.mem_map.mp hq
    have hps : p.score = p0.score := by rw [← hpe, prizeUpdate_score]
    have hqs : q.score = q0.score := by rw [← hqe, prizeUpdate_score]
    have hpt : p.timeSpent = p0.timeSpent := by rw [← hpe, prizeUpdate_timeSpent]
    have hqt : q.timeSpent = q0.timeSpent := by rw [← hqe, prizeUpdate_timeSpent]
    have hpr : p.rank = p0.rank := by rw [← hpe, prizeUpdate_rank]
    have hqr : q.rank = q0.rank := by rw [← hqe, prizeUpdate_rank]
    have hord := (assignRanks_order _ hsorted p0 q0 hp0 hq0).2 (by omega) (by omega)
    omega
  · intro hne
    obtain ⟨p0, hp0, hr0, hw0⟩ :=
      calculateRankings_winner_mem
        ({ t with status := TStatus.completed, phase := TPhase.results, actualEndTime := some now }) hne
    refine ⟨prizeUpdate t.prizeDistribution p0, ?_, ?_, ?_⟩
    · rw [hparts]
      exact List.mem_map_of_mem _ hp0
    · rw [prizeUpdate_rank]
      exact hr0
    · rw [ht', distributePrizes_winner, prizeUpdate_user]
      exact hw0

theorem tournament_ranking_correct_witness :
    (exT.completeTournament 999 = Except.ok exTcompleted)
    ∧ ((exTcompleted.participants.map (fun p => p.rank) =
          List.range' 1 exT.participants.length)
      ∧ (∀ p ∈ exTcompleted.participants, ∀ q ∈ exTcompleted.participants,
          q.score < p.score → p.rank < q.rank)
      ∧ (∀ p ∈ exTcompleted.participants, ∀ q ∈ exTcompleted.participants,
          p.score = q.score → p.timeSpent < q.timeSpent → p.rank < q.rank)
      ∧ (exT.participants ≠ [] →
          ∃ p ∈ exTcompleted.participants, p.rank = 1 ∧ exTcompleted.winner = some p.user)) :=
  ⟨rfl, tournament_ranking_correct exT 999 exTcompleted rfl⟩

end QuizApp

namespace QuizApp

theorem lookupPrize_cons (e : PrizeEntry) (rest : List PrizeEntry) (r : Nat) :
    lookupPrize (e :: rest) r = if e.rank = r then e.prize else lookupPrize rest r := by
  by_cases h : e.rank = r
  · rw [if_pos h]
    unfold lookupPrize
    rw [List.find?_cons_of_pos _ (by simp [h])]
  · rw [if_neg h]
    unfold lookupPrize
    rw [List.find?_cons_of_neg _ (by simp [h])]

theorem lookupPrize_eq_zero (rest : List PrizeEntry) (r : Nat)
    (h : ∀ e ∈ rest, e.rank ≠ r) : lookupPrize rest r = 0 := by
  unfold lookupPrize
  rw [List.find?_eq_none.mpr (fun e he => by simp [h e he])]

theorem sum_if_single (R : List Nat) (hR : R.Nodup) (c : Nat) (v : Int)
    (g : Nat → Int) (hg : g c = 0) :
    (R.map (fun r => if c = r then v else g r)).sum =
      (if c ∈ R then v else 0) + (R.map g).sum := by
  induction R with
  | nil => simp
  | cons r R ih =>
    obtain ⟨hnotin, hnd⟩ := List.nodup_cons.mp hR
    by_cases hcr : c = r
    · subst hcr
      have hcR : c ∉ R := hnotin
      have htail : R.map (fun r => if c = r then v else g r) = R.map g :=
        List.map_congr_left (fun x hx => by
          rw [if_neg]
          intro hcx
          exact hcR (hcx ▸ hx))
      simp [htail, hg]
    · have hmem : (c ∈ r :: R) = (c ∈ R) := by
        simp [List.mem_cons, hcr]
      simp only [List.map_cons, List.sum_cons, if_neg hcr, ih hnd, hmem]
      split_ifs <;> omega

theorem sum_lookup (dist : List PrizeEntry) (R : List Nat) (hR : R.Nodup)
    (hd : (dist.map (fun e => e.rank)).Nodup) :
    (R.map (lookupPrize dist)).sum =
      ((dist.filter (fun e => decide (e.rank ∈ R))).map (fun e => e.prize)).sum := by
  induction dist with
  | nil =>
    have h0 : lookupPrize [] = fun _ => (0 : Int) := funext fun r => rfl
    rw [h0]
    simp
  | cons e rest ih =>
    have hd' : (∀ x ∈ rest, ¬ x.rank = e.rank) ∧ (rest.map (fun x => x.rank)).Nodup := by
      simpa using hd
    have hzero : lookupPrize rest e.rank = 0 :=
      lookupPrize_eq_zero rest e.rank (fun x hx => hd'.1 x hx)
    have hmapR : R.map (lookupPrize (e :: rest)) =
        R.map (fun r => if e.rank = r then e.prize else lookupPrize rest r) :=
      List.map_congr_left (fun r hr => lookupPrize_cons e rest r)
    rw [hmapR, sum_if_single R hR e.rank e.prize (lookupPrize rest) hzero,
      List.filter_cons, ih hd'.2]
    by_cases hmem : e.rank ∈ R
    · rw [if_pos hmem, if_pos (by simpa using hmem)]
      simp
    · rw [if_neg hmem, if_neg (by simpa using hmem)]
      simp

end QuizApp

namespace QuizApp

theorem prizeUpdate_prize_of_zero (dist : List PrizeEntry) (p : Participant)
    (h0 : p.prize = 0) : (prizeUpdate dist p).prize = lookupPrize dist p.rank := by
  unfold prizeUpdate lookupPrize
  rcases hfind : dist.find? (fun e => e.rank == p.rank) with _ | e <;> simp [hfind, h0]

/-- C5: prize conservation.  After `distributePrizes` on a roster with
distinct ranks and zero prior prizes (the state `calculateRankings` hands
over at completion), the sum of all participants' prizes equals the sum of
the `prizeDistribution` entries whose rank matches an occupied rank; and an
empty `prizeDistribution` leaves the tournament unchanged, with every prize
still 0 and no error. -/
theorem prize_conservation (t : Tournament)
    (h0 : ∀ p ∈ t.participants, p.prize = 0)
    (hnd : (t.participants.map (fun p => p.rank)).Nodup)
    (hdist : (t.prizeDistribution.map (fun e => e.rank)).Nodup) :
    (((t.distributePrizes).participants.map (fun p => p.prize)).sum =
      ((t.prizeDistribution.filter
          (fun e => decide (e.rank ∈ t.participants.map (fun p => p.rank)))).map
        (fun e => e.prize)).sum)
    ∧ (t.prizeDistribution = [] →
        t.distributePrizes = t ∧ ∀ p ∈ (t.distributePrizes).participants, p.prize = 0) := by
  constructor
  · rw [distributePrizes_participants, List.map_map]
    have hpointwise :
        t.participants.map ((fun p => p.prize) ∘ prizeUpdate t.prizeDistribution) =
          t.participants.map (fun p => lookupPrize t.prizeDistribution p.rank) :=
      List.map_congr_left (fun p hp =>
        prizeUpdate_prize_of_zero t.prizeDistribution p (h0 p hp))
    rw [hpointwise]
    have hcomp : t.participants.map (fun p => lookupPrize t.prizeDistribution p.rank) =
        (t.participants.map (fun p => p.rank)).map (lookupPrize t.prizeDistribution) := by
      rw [List.map_map]
      rfl
    rw [hcomp]
    exact sum_lookup t.prizeDistribution (t.participants.map (fun p => p.rank)) hnd hdist
  · intro hd
    have hsame : t.distributePrizes = t := by
      unfold Tournament.distributePrizes
      rw [if_pos hd]
    rw [hsame]
    exact ⟨rfl, h0⟩

theorem prize_conservation_witness :
    ((((exTranked.distributePrizes).participants.map (fun p => p.prize)).sum =
      ((exTranked.prizeDistribution.filter
          (fun e => decide (e.rank ∈ exTranked.participants.map (fun p => p.rank)))).map
        (fun e => e.prize)).sum)) :=
  (prize_conservation exTranked (by decide) (by decide) (by decide)).1

end QuizApp
